import Mathlib

/-
  Verification development for the Ehlazeni student-document upload service
  (src/signup_documents.py).

  The Flask application is shallowly embedded: each endpoint handler becomes a
  pure Lean function from an explicit request and server state (the local disk
  plus the Firebase RTDB contents, both modelled as association lists) to a
  response and a new server state.  Nondeterministic inputs of the handler
  (request host URL, per-file millisecond timestamps and uuid4 hex tokens,
  datetime.utcnow) are supplied through an `Env` record.
-/

set_option autoImplicit false

namespace SignupDocuments

/-- JSON-like values, as produced by `jsonify` and stored in the RTDB. -/
inductive JVal where
  | s : String → JVal
  | n : Nat → JVal
  | b : Bool → JVal
  | obj : List (String × JVal) → JVal

/-- An HTTP response body: a JSON document, raw file bytes (from
`send_from_directory`), or a framework-generated HTML error page. -/
inductive Body where
  | json : JVal → Body
  | fileBytes : List Nat → Body
  | page : String → Body

/-- An HTTP response: status code plus body. -/
structure Response where
  status : Nat
  body : Body

/-- One uploaded multipart file part: its client-supplied filename and bytes. -/
structure FilePart where
  filename : String
  content : List Nat
  deriving DecidableEq

/-- The data of a POST /upload-documents request: `request.form.get('uid')`
and `request.files` (an association list keyed by form field name; lookup
returns the first entry for a key, as Werkzeug's MultiDict does). -/
structure UploadRequest where
  uid : Option String
  files : List (String × FilePart)

/-- Per-request environment: `request.host_url`, the stream of
(millisecond timestamp, uuid4 hex token) pairs drawn by successive calls to
`save_file_and_get_url` (indexed by how many files this request has saved so
far), and `datetime.utcnow().isoformat()`. -/
structure Env where
  host_url : String
  stamps : Nat → Nat × String
  now_iso : String

/-- Server state: the Firebase-initialization flag, the upload directory
(stored filename ↦ bytes), and the Firebase RTDB (path ↦ record, where a
record maps field names to values).  Lookup returns the first entry. -/
structure ServerState where
  firebase_inited : Bool
  disk : List (String × List Nat)
  store : List (String × List (String × JVal))

/-- `ALLOWED_EXTENSIONS = {'pdf', 'jpg', 'jpeg', 'png'}` (src line 18). -/
def ALLOWED_EXTENSIONS : List String := ["pdf", "jpg", "jpeg", "png"]

/-- `app.config['MAX_CONTENT_LENGTH'] = 20 * 1024 * 1024` (src line 20). -/
def MAX_CONTENT_LENGTH : Nat := 20 * 1024 * 1024

/-- The characters after the last occurrence of `c` in `l`; `[]` when `c`
does not occur.  This is Python's `l.rsplit(c, 1)[1]` when `c` occurs. -/
def afterLast (c : Char) : List Char → List Char
  | [] => []
  | x :: xs => if c ∈ xs then afterLast c xs else if x = c then xs else []

/-- `allowed_file` (src lines 49-50):
`'.' in filename and filename.rsplit('.', 1)[1].lower() in ALLOWED_EXTENSIONS`. -/
def allowed_file (filename : String) : Bool :=
  decide ('.' ∈ filename.data) &&
    ALLOWED_EXTENSIONS.contains (String.mk ((afterLast '.' filename.data).map Char.toLower))

/-- Characters kept by werkzeug's `_filename_ascii_strip_re` ([A-Za-z0-9_.-]). -/
def filenameSafeChar (c : Char) : Bool :=
  c.isAlpha || c.isDigit || c == '_' || c == '.' || c == '-'

/-- Split a character list on runs of whitespace, dropping empty tokens
(Python's `str.split()`).  `acc` holds the current token reversed. -/
def wsTokens : List Char → List Char → List (List Char)
  | [], acc => if acc.isEmpty then [] else [acc.reverse]
  | c :: cs, acc =>
    if c.isWhitespace then
      if acc.isEmpty then wsTokens cs [] else acc.reverse :: wsTokens cs []
    else wsTokens cs (c :: acc)

/-- Drop the characters of `bad` from both ends of `l` (Python `str.strip`). -/
def stripEnds (bad : List Char) (l : List Char) : List Char :=
  ((l.dropWhile (fun c => bad.contains c)).reverse.dropWhile (fun c => bad.contains c)).reverse

/-- `werkzeug.utils.secure_filename`, as called on src line 57, modelled on a
POSIX host for its ASCII fragment: the NFKD-normalize-then-ascii-encode step
is modelled as dropping non-ASCII characters, `os.sep` (`/`) is replaced by a
space, whitespace-separated tokens are joined with `_`, characters outside
[A-Za-z0-9_.-] are removed, and leading/trailing `.`/`_` are stripped. -/
def secure_filename (s : String) : String :=
  let l1 := s.data.filter (fun c => c.toNat < 128)
  let l2 := l1.map (fun c => if c == '/' then ' ' else c)
  let l3 := List.intercalate ['_'] (wsTokens l2 [])
  let l4 := l3.filter filenameSafeChar
  String.mk (stripEnds ['.', '_'] l4)

/-- `host_url.rstrip('/')` (src line 64). -/
def rstripSlash (s : String) : String :=
  String.mk ((s.data.reverse.dropWhile (fun c => c = '/')).reverse)

/-- `save_file_and_get_url` (src lines 53-64).  `ts` and `tok` are the values
of `int(datetime.now().timestamp()*1000)` and `uuid.uuid4().hex` for this
call; the disk write `file_obj.save(dest)` becomes consing onto the upload
directory, and `os.path.getsize(dest)` is the number of bytes written.
Returns the Python tuple `(url, unique, size)` plus the new disk contents. -/
def save_file_and_get_url (ts : Nat) (tok : String) (f : FilePart) (host_url : String)
    (disk : List (String × List Nat)) :
    (String × String × Nat) × List (String × List Nat) :=
  let filename := secure_filename f.filename
  let unique := toString ts ++ "_" ++ tok ++ "_" ++ filename
  let disk2 := (unique, f.content) :: disk
  ((rstripSlash host_url ++ "/uploads/applications/" ++ unique, unique, f.content.length), disk2)

/-- `expected = ['previousResults', 'studentIdCopy', 'guardianIdCopy']`
(src line 80). -/
def expected : List String := ["previousResults", "studentIdCopy", "guardianIdCopy"]

/-- `k not in request.files or request.files[k].filename == ""` (src line 81). -/
def fileMissing (files : List (String × FilePart)) (k : String) : Bool :=
  match files.lookup k with
  | none => true
  | some f => f.filename == ""

/-- `request.files[key]`, used after the missing-file check guarantees
presence (src line 92); absent keys yield a dummy empty part. -/
def lookupF (files : List (String × FilePart)) (k : String) : FilePart :=
  (files.lookup k).getD { filename := "", content := [] }

/-- Python truthiness of `request.form.get('uid')`: `None` or `""`. -/
def strFalsy : Option String → Bool
  | none => true
  | some s => s == ""

/-- `{'success': False, 'error': msg}`. -/
def errBody (msg : String) : Body :=
  Body.json (JVal.obj [("success", JVal.b false), ("error", JVal.s msg)])

/-- `f'application/pending/{uid}'` (src lines 106, 133). -/
def pendingPath (uid : String) : String := "application/pending/" ++ uid

/-- Result of the `for key in expected` loop (src lines 91-103): either the
first key whose file failed `allowed_file` together with the disk contents at
that moment, or the assembled `documents`/`meta` dicts and final disk. -/
inductive LoopOut where
  | badType : String → List (String × List Nat) → LoopOut
  | done : List (String × JVal) → List (String × JVal) → List (String × List Nat) → LoopOut

/-- The body of the `for key in expected` loop (src lines 91-103): validate
the extension of each file in order, and on success immediately save it and
record its URL and metadata.  `i` counts the files saved so far (it indexes
`Env.stamps`). -/
def processFiles (host : String) (files : List (String × FilePart)) (stamps : Nat → Nat × String) :
    List String → Nat → List (String × JVal) → List (String × JVal) →
    List (String × List Nat) → LoopOut
  | [], _, docs, meta, disk => LoopOut.done docs meta disk
  | key :: rest, i, docs, meta, disk =>
    let f := lookupF files key
    if allowed_file f.filename = false then
      LoopOut.badType key disk
    else
      let r := save_file_and_get_url (stamps i).1 (stamps i).2 f host disk
      processFiles host files stamps rest (i + 1)
        (docs ++ [(key, JVal.s r.1.1)])
        (meta ++ [(key, JVal.obj [("originalName", JVal.s f.filename),
                                  ("storedName", JVal.s r.1.2.1),
                                  ("size", JVal.n r.1.2.2)])])
        r.2

/-- Firebase RTDB `ref.update(m)` merge at one path: every key of `upd` is
set to its new value, every other key of the existing record keeps its
value. -/
def mergeFields (old upd : List (String × JVal)) : List (String × JVal) :=
  old.filter (fun p => (upd.lookup p.1).isNone) ++ upd

/-- `db.reference(path).update(fields)` (src lines 106-111): merge `upd` into
the record at `path`, leaving all other paths unchanged. -/
def storeUpdate (store : List (String × List (String × JVal))) (path : String)
    (upd : List (String × JVal)) : List (String × List (String × JVal)) :=
  (path, mergeFields ((store.lookup path).getD []) upd) :: store

/-- `upload_documents` (src lines 70-117). -/
def upload_documents (env : Env) (req : UploadRequest) (st : ServerState) :
    Response × ServerState :=
  if st.firebase_inited = false then
    ({ status := 500, body := errBody "Server firebase not initialized. Check env var." }, st)
  else if strFalsy req.uid then
    ({ status := 400, body := errBody "Missing uid" }, st)
  else
    let uid := req.uid.getD ""
    let missing := expected.filter (fun k => fileMissing req.files k)
    if missing.isEmpty = false then
      ({ status := 400,
         body := errBody ("Missing files: " ++ String.intercalate ", " missing) }, st)
    else
      match processFiles env.host_url req.files env.stamps expected 0 [] [] st.disk with
      | LoopOut.badType key disk2 =>
          ({ status := 400, body := errBody ("Invalid file type for " ++ key) },
           { st with disk := disk2 })
      | LoopOut.done docs meta disk2 =>
          let fields := [("documents", JVal.obj docs),
                         ("documentsMeta", JVal.obj meta),
                         ("documentsUploadedAt", JVal.s env.now_iso)]
          ({ status := 200,
             body := Body.json (JVal.obj [("success", JVal.b true),
                                          ("documents", JVal.obj docs),
                                          ("meta", JVal.obj meta)]) },
           { st with disk := disk2, store := storeUpdate st.store (pendingPath uid) fields })

/-- `get_documents` (src lines 123-142).  `ref.get()` returns `None` when
nothing exists at the path; `if not data` also treats an empty record as
absent. -/
def get_documents (uidq : Option String) (st : ServerState) : Response × ServerState :=
  if st.firebase_inited = false then
    ({ status := 500, body := errBody "Server firebase not initialized. Check env var." }, st)
  else if strFalsy uidq then
    ({ status := 400, body := errBody "Missing uid" }, st)
  else
    let uid := uidq.getD ""
    match st.store.lookup (pendingPath uid) with
    | none => ({ status := 404, body := errBody "No documents found" }, st)
    | some data =>
        if data.isEmpty then
          ({ status := 404, body := errBody "No documents found" }, st)
        else
          ({ status := 200,
             body := Body.json (JVal.obj [("success", JVal.b true), ("data", JVal.obj data)]) }, st)

/-- `serve_uploaded_file` (src lines 148-151): `send_from_directory` streams
the named file from the upload directory, or produces the framework's 404
page when it is absent.  It never consults the Firebase flag or store. -/
def serve_uploaded_file (filename : String) (st : ServerState) : Response × ServerState :=
  match st.disk.lookup filename with
  | none => ({ status := 404, body := Body.page "Not Found" }, st)
  | some bs => ({ status := 200, body := Body.fileBytes bs }, st)

/-- The routes of the application, each carrying its parsed request data. -/
inductive Route where
  | uploadDocuments : UploadRequest → Route
  | getDocuments : Option String → Route
  | serveFile : String → Route

/-- A raw HTTP request: its route and the byte length of its body
(`Content-Length`). -/
structure HttpRequest where
  route : Route
  contentLength : Nat

/-- Routing with Werkzeug's lazy `MAX_CONTENT_LENGTH` enforcement: the limit
configured on src line 20 is checked only when a handler first reads the
request body, never before routing.  `get_documents` and
`serve_uploaded_file` never read the body, so they run unchanged whatever
the Content-Length.  `upload_documents` first runs the firebase check of src
lines 72-73 (no body access), then `request.form.get('uid')` on src line 76
reads the body: on an oversized body Werkzeug raises RequestEntityTooLarge
there, which the catch-all of src lines 115-117 converts into a 500 whose
message is `str(e)` for that exception. -/
def dispatch (env : Env) (r : HttpRequest) (st : ServerState) : Response × ServerState :=
  match r.route with
  | Route.uploadDocuments req =>
      if st.firebase_inited = false then
        ({ status := 500,
           body := errBody "Server firebase not initialized. Check env var." }, st)
      else if MAX_CONTENT_LENGTH < r.contentLength then
        ({ status := 500,
           body := errBody
             "413 Request Entity Too Large: The data value transmitted exceeds the capacity limit." },
         st)
      else
        upload_documents env req st
  | Route.getDocuments uidq => get_documents uidq st
  | Route.serveFile fn => serve_uploaded_file fn st

/-- Decimal digit characters of `n`, most significant first; the reference
rendering of `int` used to reason about `Nat.repr` in the timestamp prefix. -/
def digitsOf (n : Nat) : List Char :=
  if _h : n < 10 then [Nat.digitChar n]
  else digitsOf (n / 10) ++ [Nat.digitChar (n % 10)]
decreasing_by exact Nat.div_lt_self (by omega) (by omega)

/-- The numeric value of a decimal digit string (inverse of `digitsOf`). -/
def decValue (l : List Char) : Nat :=
  l.foldl (fun acc c => acc * 10 + (c.toNat - 48)) 0

/-- The substring of `s` after its last `'.'`, written the way the spec reads
("the substring after the last dot"): the longest dot-free suffix. -/
def suffixAfterLastDot (s : String) : String :=
  String.mk ((s.data.reverse.takeWhile (fun a => a != '.')).reverse)

/-! ### Concrete fixtures used by the witness theorems -/

def fileA : FilePart := { filename := "results.pdf", content := [1, 2] }

def fileB : FilePart := { filename := "student.JPG", content := [3] }

def fileC : FilePart := { filename := "guardian.png", content := [4, 5, 6] }

def fileBad : FilePart := { filename := "student.txt", content := [9] }

def reqW : UploadRequest :=
  { uid := some "u1",
    files := [("previousResults", fileA), ("studentIdCopy", fileB), ("guardianIdCopy", fileC)] }

def reqMissing : UploadRequest :=
  { uid := some "u1", files := [("previousResults", fileA), ("guardianIdCopy", fileC)] }

def reqBad : UploadRequest :=
  { uid := some "u1",
    files := [("previousResults", fileA), ("studentIdCopy", fileBad), ("guardianIdCopy", fileC)] }

def envW : Env :=
  { host_url := "http://localhost:3000/",
    stamps := fun i => (1700000000000 + i, "0123456789abcdef0123456789abcdef"),
    now_iso := "2026-10-12T00:00:00" }

def stW : ServerState :=
  { firebase_inited := true, disk := [],
    store := [("application/pending/u1", [("status", JVal.s "new")])] }

def stOff : ServerState :=
  { firebase_inited := false, disk := [("f.pdf", [7])], store := [] }

def tokW : String := "0123456789abcdef0123456789abcdef"

/-- A lowercase hexadecimal digit: the alphabet of `uuid.uuid4().hex`. -/
def isHexChar (c : Char) : Bool := c.isDigit || ('a' ≤ c && c ≤ 'f')

/-! ### Association-list lemmas -/

theorem lookup_cons_eq {β : Type} (k : String) (v : β) (l : List (String × β)) :
    List.lookup k ((k, v) :: l) = some v := by
  simp [List.lookup]

theorem lookup_cons_ne {β : Type} (k k0 : String) (v : β) (l : List (String × β))
    (h : k ≠ k0) : List.lookup k ((k0, v) :: l) = List.lookup k l := by
  simp [List.lookup, beq_eq_false_iff_ne.mpr h]

theorem lookup_append_or {β : Type} (l1 l2 : List (String × β)) (k : String) :
    (l1 ++ l2).lookup k = ((l1.lookup k).or (l2.lookup k)) := by
  induction l1 with
  | nil => simp [List.lookup]
  | cons a t ih =>
      cases a with
      | mk k0 v0 =>
          by_cases h : k = k0
          · subst h; simp [List.lookup]
          · simp [List.lookup, beq_eq_false_iff_ne.mpr h, ih]

theorem lookup_filter_key_none {β : Type} (l : List (String × β)) (p : String × β → Bool)
    (k : String) (hk : ∀ v, p (k, v) = false) : (l.filter p).lookup k = none := by
  induction l with
  | nil => simp [List.lookup]
  | cons a t ih =>
      cases a with
      | mk k0 v0 =>
          by_cases h : k = k0
          · subst h
            simp [List.filter, hk v0, ih]
          · by_cases hp : p (k0, v0) = true
            · simp [List.filter, hp, lookup_cons_ne k k0 v0 _ h, ih]
            · simp only [Bool.not_eq_true] at hp
              simp [List.filter, hp, ih]

theorem lookup_filter_key_same {β : Type} (l : List (String × β)) (p : String × β → Bool)
    (k : String) (hk : ∀ v, p (k, v) = true) : (l.filter p).lookup k = l.lookup k := by
  induction l with
  | nil => simp
  | cons a t ih =>
      cases a with
      | mk k0 v0 =>
          by_cases h : k = k0
          · subst h
            simp [List.filter, hk v0, lookup_cons_eq]
          · by_cases hp : p (k0, v0) = true
            · simp [List.filter, hp, lookup_cons_ne k k0 v0 _ h, ih,
                lookup_cons_ne k k0 v0 t h]
            · simp only [Bool.not_eq_true] at hp
              simp [List.filter, hp, ih, lookup_cons_ne k k0 v0 t h]

theorem mergeFields_lookup_new (old upd : List (String × JVal)) (k : String)
    (h : (upd.lookup k).isSome) : (mergeFields old upd).lookup k = upd.lookup k := by
  unfold mergeFields
  rw [lookup_append_or, lookup_filter_key_none]
  · simp
  · intro v
    simp only [Option.isNone]
    cases hu : upd.lookup k with
    | none => rw [hu] at h; simp at h
    | some w => rfl

theorem mergeFields_lookup_old (old upd : List (String × JVal)) (k : String)
    (h : upd.lookup k = none) : (mergeFields old upd).lookup k = old.lookup k := by
  unfold mergeFields
  rw [lookup_append_or, lookup_filter_key_same, h]
  · cases old.lookup k <;> rfl
  · intro v
    simp [h]

theorem storeUpdate_lookup_self (store : List (String × List (String × JVal)))
    (path : String) (upd : List (String × JVal)) :
    (storeUpdate store path upd).lookup path =
      some (mergeFields ((store.lookup path).getD []) upd) := by
  unfold storeUpdate
  exact lookup_cons_eq _ _ _

/-! ### Lemmas about the upload loop -/

theorem processFiles_all_ok (host : String) (files : List (String × FilePart))
    (stamps : Nat → Nat × String) (keys : List String) :
    ∀ (i : Nat) (docs meta : List (String × JVal)) (disk : List (String × List Nat)),
      (∀ k ∈ keys, allowed_file (lookupF files k).filename = true) →
      ∃ nd nm disk2,
        processFiles host files stamps keys i docs meta disk =
          LoopOut.done (docs ++ nd) (meta ++ nm) disk2 ∧
        nd.map Prod.fst = keys ∧ nm.map Prod.fst = keys ∧
        disk2.length = disk.length + keys.length := by
  induction keys with
  | nil =>
      intro i docs meta disk _
      exact ⟨[], [], disk, by simp [processFiles], rfl, rfl, by simp⟩
  | cons k ks ih =>
      intro i docs meta disk h
      have hk : allowed_file (lookupF files k).filename = true := h k (by simp)
      have hks : ∀ k2 ∈ ks, allowed_file (lookupF files k2).filename = true :=
        fun k2 hk2 => h k2 (by simp [hk2])
      obtain ⟨nd, nm, disk2, heq, h1, h2, h3⟩ := ih (i + 1)
        (docs ++ [(k, JVal.s (save_file_and_get_url (stamps i).1 (stamps i).2
          (lookupF files k) host disk).1.1)])
        (meta ++ [(k, JVal.obj [("originalName", JVal.s (lookupF files k).filename),
          ("storedName", JVal.s (save_file_and_get_url (stamps i).1 (stamps i).2
            (lookupF files k) host disk).1.2.1),
          ("size", JVal.n (save_file_and_get_url (stamps i).1 (stamps i).2
            (lookupF files k) host disk).1.2.2)])])
        (save_file_and_get_url (stamps i).1 (stamps i).2 (lookupF files k) host disk).2
        hks
      refine ⟨(k, JVal.s (save_file_and_get_url (stamps i).1 (stamps i).2
          (lookupF files k) host disk).1.1) :: nd,
        (k, JVal.obj [("originalName", JVal.s (lookupF files k).filename),
          ("storedName", JVal.s (save_file_and_get_url (stamps i).1 (stamps i).2
            (lookupF files k) host disk).1.2.1),
          ("size", JVal.n (save_file_and_get_url (stamps i).1 (stamps i).2
            (lookupF files k) host disk).1.2.2)]) :: nm, disk2, ?_, ?_, ?_, ?_⟩
      · rw [processFiles, hk]
        simp only [Bool.true_eq_false, if_false]
        rw [heq]
        simp
      · simpa using h1
      · simpa using h2
      · have hlen : (save_file_and_get_url (stamps i).1 (stamps i).2
            (lookupF files k) host disk).2.length = disk.length + 1 := by
          simp [save_file_and_get_url]
        rw [h3, hlen]
        simp
        omega

theorem processFiles_first_bad (host : String) (files : List (String × FilePart))
    (stamps : Nat → Nat × String) (l1 : List String) :
    ∀ (k : String) (l2 : List String) (i : Nat) (docs meta : List (String × JVal))
      (disk : List (String × List Nat)),
      (∀ k2 ∈ l1, allowed_file (lookupF files k2).filename = true) →
      allowed_file (lookupF files k).filename = false →
      ∃ disk2,
        processFiles host files stamps (l1 ++ k :: l2) i docs meta disk =
          LoopOut.badType k disk2 ∧
        disk2.length = disk.length + l1.length := by
  induction l1 with
  | nil =>
      intro k l2 i docs meta disk _ hbad
      refine ⟨disk, ?_, by simp⟩
      rw [List.nil_append, processFiles, hbad]
      simp
  | cons k1 ks ih =>
      intro k l2 i docs meta disk hgood hbad
      have hk1 : allowed_file (lookupF files k1).filename = true := hgood k1 (by simp)
      have hks : ∀ k2 ∈ ks, allowed_file (lookupF files k2).filename = true :=
        fun k2 hk2 => hgood k2 (by simp [hk2])
      obtain ⟨disk2, heq, hlen⟩ := ih k l2 (i + 1)
        (docs ++ [(k1, JVal.s (save_file_and_get_url (stamps i).1 (stamps i).2
          (lookupF files k1) host disk).1.1)])
        (meta ++ [(k1, JVal.obj [("originalName", JVal.s (lookupF files k1).filename),
          ("storedName", JVal.s (save_file_and_get_url (stamps i).1 (stamps i).2
            (lookupF files k1) host disk).1.2.1),
          ("size", JVal.n (save_file_and_get_url (stamps i).1 (stamps i).2
            (lookupF files k1) host disk).1.2.2)])])
        (save_file_and_get_url (stamps i).1 (stamps i).2 (lookupF files k1) host disk).2
        hks hbad
      refine ⟨disk2, ?_, ?_⟩
      · rw [List.cons_append, processFiles, hk1]
        simp only [Bool.true_eq_false, if_false]
        exact heq
      · have hlen1 : (save_file_and_get_url (stamps i).1 (stamps i).2
            (lookupF files k1) host disk).2.length = disk.length + 1 := by
          simp [save_file_and_get_url]
        rw [hlen, hlen1]
        simp
        omega

/-! ### Order-independence of key lookup -/

theorem perm_lookup_eq {β : Type} {l1 l2 : List (String × β)} (p : l1.Perm l2)
    (nd : (l1.map Prod.fst).Nodup) (k : String) : l1.lookup k = l2.lookup k := by
  induction p with
  | nil => rfl
  | cons x p ih =>
      cases x with
      | mk k0 v0 =>
          by_cases h : k = k0
          · subst h; rw [lookup_cons_eq, lookup_cons_eq]
          · rw [lookup_cons_ne _ _ _ _ h, lookup_cons_ne _ _ _ _ h]
            refine ih ?_
            rw [List.map_cons] at nd
            exact (List.nodup_cons.mp nd).2
  | swap x y l =>
      cases x with
      | mk kx vx =>
          cases y with
          | mk ky vy =>
              have hxy : ky ≠ kx := by
                rw [List.map_cons, List.map_cons] at nd
                have h1 := (List.nodup_cons.mp nd).1
                intro h
                exact h1 (by rw [h]; exact List.mem_cons_self kx _)
              by_cases hy : k = ky
              · subst hy
                rw [lookup_cons_eq, lookup_cons_ne _ _ _ _ hxy, lookup_cons_eq]
              · by_cases hx : k = kx
                · subst hx
                  rw [lookup_cons_ne _ _ _ _ hy, lookup_cons_eq, lookup_cons_eq]
                · rw [lookup_cons_ne _ _ _ _ hy, lookup_cons_ne _ _ _ _ hx,
                    lookup_cons_ne _ _ _ _ hx, lookup_cons_ne _ _ _ _ hy]
  | trans p1 p2 ih1 ih2 =>
      have nd2 := ((p1.map Prod.fst).nodup_iff).mp nd
      rw [ih1 nd, ih2 nd2]

theorem processFiles_lookup_congr (host : String) (f1 f2 : List (String × FilePart))
    (stamps : Nat → Nat × String) (hl : ∀ k, f1.lookup k = f2.lookup k)
    (keys : List String) :
    ∀ (i : Nat) (docs meta : List (String × JVal)) (disk : List (String × List Nat)),
      processFiles host f1 stamps keys i docs meta disk =
        processFiles host f2 stamps keys i docs meta disk := by
  induction keys with
  | nil => intro i docs meta disk; rfl
  | cons k ks ih =>
      intro i docs meta disk
      have hf : lookupF f1 k = lookupF f2 k := by unfold lookupF; rw [hl]
      rw [processFiles, processFiles, hf]
      by_cases hba : allowed_file (lookupF f2 k).filename = false
      · rw [if_pos hba, if_pos hba]
      · rw [if_neg hba, if_neg hba, ih]

theorem upload_documents_files_congr (env : Env) (req : UploadRequest)
    (files2 : List (String × FilePart)) (st : ServerState)
    (hl : ∀ k, files2.lookup k = req.files.lookup k) :
    upload_documents env { req with files := files2 } st = upload_documents env req st := by
  have hm : (fun k => fileMissing files2 k) = fun k => fileMissing req.files k := by
    funext k
    unfold fileMissing
    rw [hl]
  unfold upload_documents
  simp only [hm, processFiles_lookup_congr env.host_url files2 req.files env.stamps hl]

/-! ### The successful upload path -/

theorem upload_success_full (env : Env) (req : UploadRequest) (st : ServerState) (uid : String)
    (hinit : st.firebase_inited = true)
    (huid : req.uid = some uid) (hu : uid ≠ "")
    (hfiles : ∀ k ∈ expected, ∃ f, req.files.lookup k = some f ∧ f.filename ≠ "" ∧
        allowed_file f.filename = true) :
    ∃ docs meta disk2,
      upload_documents env req st =
        ({ status := 200,
           body := Body.json (JVal.obj [("success", JVal.b true),
                                        ("documents", JVal.obj docs),
                                        ("meta", JVal.obj meta)]) },
         { st with disk := disk2,
                   store := storeUpdate st.store (pendingPath uid)
                     [("documents", JVal.obj docs),
                      ("documentsMeta", JVal.obj meta),
                      ("documentsUploadedAt", JVal.s env.now_iso)] }) ∧
      docs.map Prod.fst = expected ∧ meta.map Prod.fst = expected ∧
      disk2.length = st.disk.length + 3 := by
  have hmiss : ∀ k ∈ expected, fileMissing req.files k = false := by
    intro k hk
    obtain ⟨f, hf, hne, _⟩ := hfiles k hk
    unfold fileMissing
    rw [hf]
    exact beq_eq_false_iff_ne.mpr hne
  have hall : ∀ k ∈ expected, allowed_file (lookupF req.files k).filename = true := by
    intro k hk
    obtain ⟨f, hf, _, hal⟩ := hfiles k hk
    unfold lookupF
    rw [hf]
    exact hal
  have hfilter : expected.filter (fun k => fileMissing req.files k) = [] :=
    List.filter_eq_nil_iff.mpr (fun k hk => by rw [hmiss k hk]; exact Bool.false_ne_true)
  obtain ⟨nd, nm, disk2, heq, h1, h2, h3⟩ :=
    processFiles_all_ok env.host_url req.files env.stamps expected 0 [] [] st.disk hall
  refine ⟨nd, nm, disk2, ?_, h1, h2, by rw [h3]; rfl⟩
  unfold upload_documents
  rw [hinit, huid]
  simp only [strFalsy, Bool.true_eq_false, if_false, beq_eq_false_iff_ne.mpr hu,
    Option.getD_some, hfilter, List.isEmpty_nil]
  rw [heq]
  simp

/-! ### The extension check: rsplit versus longest dot-free suffix -/

theorem takeWhile_append_of_all (p : Char → Bool) (l1 l2 : List Char) (b : Char)
    (h : ∀ a ∈ l1, p a = true) (hb : p b = false) :
    (l1 ++ b :: l2).takeWhile p = l1 := by
  induction l1 with
  | nil => simp [List.takeWhile, hb]
  | cons x xs ih =>
      simp only [List.cons_append, List.takeWhile_cons]
      rw [h x (by simp)]
      simp [ih (fun a ha => h a (by simp [ha]))]

theorem takeWhile_append_of_bad (p : Char → Bool) (l1 l2 : List Char)
    (h : ∃ a ∈ l1, p a = false) :
    (l1 ++ l2).takeWhile p = l1.takeWhile p := by
  induction l1 with
  | nil =>
      obtain ⟨a, ha, _⟩ := h
      exact absurd ha (List.not_mem_nil a)
  | cons x xs ih =>
      simp only [List.cons_append, List.takeWhile_cons]
      by_cases hx : p x = true
      · rw [hx]
        simp only [if_true]
        obtain ⟨a, ha, hpa⟩ := h
        rcases List.mem_cons.mp ha with rfl | ha2
        · rw [hx] at hpa; exact absurd hpa (by simp)
        · rw [ih ⟨a, ha2, hpa⟩]
      · simp only [Bool.not_eq_true] at hx
        rw [hx]
        simp

theorem afterLast_eq_takeWhile (c : Char) (l : List Char) (h : c ∈ l) :
    afterLast c l = (l.reverse.takeWhile (fun a => a != c)).reverse := by
  induction l with
  | nil => exact absurd h (List.not_mem_nil c)
  | cons x xs ih =>
      rw [afterLast, List.reverse_cons]
      by_cases hc : c ∈ xs
      · rw [if_pos hc, ih hc, takeWhile_append_of_bad]
        exact ⟨c, by simpa using hc, by simp⟩
      · rw [if_neg hc]
        rcases List.mem_cons.mp h with rfl | hmem
        · rw [if_pos rfl, takeWhile_append_of_all]
          · simp
          · intro a ha
            have : a ≠ c := by
              intro heq
              exact hc (by simpa [heq] using ha)
            simpa using this
          · simp
        · exact absurd hmem hc

/-! ### Decimal rendering of the timestamp prefix -/

theorem digitChar_isDigit : ∀ n < 10, (Nat.digitChar n).isDigit = true := by decide

theorem digitChar_val : ∀ n < 10, (Nat.digitChar n).toNat - 48 = n := by decide

theorem toDigitsCore_eq_digitsOf (fuel : Nat) :
    ∀ (n : Nat) (ds : List Char), n < fuel →
      Nat.toDigitsCore 10 fuel n ds = digitsOf n ++ ds := by
  induction fuel with
  | zero => intro n ds h; omega
  | succ f ih =>
      intro n ds h
      rw [Nat.toDigitsCore]
      by_cases h0 : n / 10 = 0
      · have hn : n < 10 := by omega
        rw [if_pos h0, digitsOf, dif_pos hn, Nat.mod_eq_of_lt hn]
        rfl
      · have hn : ¬ n < 10 := by
          intro hlt
          exact h0 (Nat.div_eq_of_lt hlt)
        have hdiv : n / 10 < f := by
          have h1 : n / 10 < n := Nat.div_lt_self (by omega) (by omega)
          omega
        rw [if_neg h0, ih (n / 10) _ hdiv]
        conv_rhs => rw [digitsOf]
        rw [dif_neg hn]
        simp

theorem repr_eq_digitsOf (n : Nat) : Nat.repr n = String.mk (digitsOf n) := by
  show (Nat.toDigitsCore 10 (n + 1) n []).asString = String.mk (digitsOf n)
  rw [toDigitsCore_eq_digitsOf (n + 1) n [] (by omega)]
  simp [List.asString]

theorem digitsOf_all_digits (n : Nat) : ∀ c ∈ digitsOf n, c.isDigit = true := by
  induction n using Nat.strong_induction_on with
  | _ n ih =>
      intro c hc
      rw [digitsOf] at hc
      by_cases h : n < 10
      · rw [dif_pos h] at hc
        simp only [List.mem_singleton] at hc
        subst hc
        exact digitChar_isDigit n h
      · rw [dif_neg h] at hc
        rcases List.mem_append.mp hc with h1 | h2
        · exact ih (n / 10) (Nat.div_lt_self (by omega) (by omega)) c h1
        · simp only [List.mem_singleton] at h2
          subst h2
          exact digitChar_isDigit (n % 10) (Nat.mod_lt n (by omega))

theorem underscore_not_mem_digitsOf (n : Nat) : '_' ∉ digitsOf n := by
  intro h
  have := digitsOf_all_digits n '_' h
  simp [Char.isDigit] at this

theorem decValue_digitsOf (n : Nat) : decValue (digitsOf n) = n := by
  induction n using Nat.strong_induction_on with
  | _ n ih =>
      rw [digitsOf]
      by_cases h : n < 10
      · rw [dif_pos h]
        unfold decValue
        simp only [List.foldl_cons, List.foldl_nil, Nat.zero_mul, Nat.zero_add]
        exact digitChar_val n h
      · rw [dif_neg h]
        unfold decValue
        rw [List.foldl_append]
        have hrec : decValue (digitsOf (n / 10)) = n / 10 :=
          ih (n / 10) (Nat.div_lt_self (by omega) (by omega))
        unfold decValue at hrec
        rw [hrec]
        simp only [List.foldl_cons, List.foldl_nil]
        rw [digitChar_val (n % 10) (Nat.mod_lt n (by omega))]
        omega

theorem repr_injective (m n : Nat) (h : Nat.repr m = Nat.repr n) : m = n := by
  rw [repr_eq_digitsOf, repr_eq_digitsOf] at h
  have hdata : digitsOf m = digitsOf n := congrArg String.data h
  calc m = decValue (digitsOf m) := (decValue_digitsOf m).symm
    _ = decValue (digitsOf n) := by rw [hdata]
    _ = n := decValue_digitsOf n

/-! ### Injectivity of the stored-filename prefix -/

theorem append_sep_inj (c : Char) :
    ∀ (a1 a2 b1 b2 : List Char), c ∉ a1 → c ∉ a2 →
      a1 ++ c :: b1 = a2 ++ c :: b2 → a1 = a2 ∧ b1 = b2 := by
  intro a1
  induction a1 with
  | nil =>
      intro a2 b1 b2 _ h2 heq
      cases a2 with
      | nil => simpa using heq
      | cons y ys =>
          simp only [List.nil_append, List.cons_append, List.cons.injEq] at heq
          exfalso
          exact h2 (by rw [heq.1]; exact List.mem_cons_self y ys)
  | cons x xs ih =>
      intro a2 b1 b2 h1 h2 heq
      cases a2 with
      | nil =>
          simp only [List.cons_append, List.nil_append, List.cons.injEq] at heq
          exfalso
          exact h1 (by rw [heq.1]; exact List.mem_cons_self c xs)
      | cons y ys =>
          simp only [List.cons_append, List.cons.injEq] at heq
          obtain ⟨hxy, hrest⟩ := heq
          have h1' : c ∉ xs := fun h => h1 (List.mem_cons_of_mem x h)
          have h2' : c ∉ ys := fun h => h2 (List.mem_cons_of_mem y h)
          obtain ⟨ha, hb⟩ := ih ys b1 b2 h1' h2' hrest
          exact ⟨by rw [hxy, ha], hb⟩

theorem data_underscore : ("_" : String).data = ['_'] := rfl

theorem unique_name_inj (ts1 ts2 : Nat) (tok1 tok2 fn1 fn2 : String)
    (h3 : '_' ∉ tok1.data) (h4 : '_' ∉ tok2.data)
    (hne : (ts1, tok1) ≠ (ts2, tok2)) :
    toString ts1 ++ "_" ++ tok1 ++ "_" ++ fn1 ≠ toString ts2 ++ "_" ++ tok2 ++ "_" ++ fn2 := by
  intro h
  have hdata := congrArg String.data h
  have hts : (toString ts1 : String) = Nat.repr ts1 := rfl
  have hts2 : (toString ts2 : String) = Nat.repr ts2 := rfl
  rw [hts, hts2, repr_eq_digitsOf, repr_eq_digitsOf] at hdata
  simp only [String.data_append, data_underscore] at hdata
  have hdata2 : digitsOf ts1 ++ '_' :: (tok1.data ++ '_' :: fn1.data) =
      digitsOf ts2 ++ '_' :: (tok2.data ++ '_' :: fn2.data) := by
    simpa using hdata
  obtain ⟨hts_eq, hrest⟩ := append_sep_inj '_' (digitsOf ts1) (digitsOf ts2) _ _
    (underscore_not_mem_digitsOf ts1) (underscore_not_mem_digitsOf ts2) hdata2
  obtain ⟨htok_eq, _⟩ := append_sep_inj '_' tok1.data tok2.data _ _ h3 h4 hrest
  apply hne
  have e1 : ts1 = ts2 := by
    apply repr_injective
    rw [repr_eq_digitsOf, repr_eq_digitsOf, hts_eq]
  have e2 : tok1 = tok2 := by
    cases tok1 with
    | mk d1 =>
        cases tok2 with
        | mk d2 => exact congrArg String.mk htok_eq
  rw [e1, e2]

theorem upload_first_bad (env : Env) (req : UploadRequest) (st : ServerState)
    (uid : String) (l1 : List String) (k : String) (l2 : List String)
    (hinit : st.firebase_inited = true)
    (huid : req.uid = some uid) (hu : uid ≠ "")
    (hnomiss : ∀ k2 ∈ expected, fileMissing req.files k2 = false)
    (hsplit : expected = l1 ++ k :: l2)
    (hgood : ∀ k2 ∈ l1, allowed_file (lookupF req.files k2).filename = true)
    (hbad : allowed_file (lookupF req.files k).filename = false) :
    (upload_documents env req st).1 =
      { status := 400, body := errBody ("Invalid file type for " ++ k) } ∧
    (upload_documents env req st).2.store = st.store ∧
    (upload_documents env req st).2.disk.length = st.disk.length + l1.length := by
  have hfilter : expected.filter (fun k => fileMissing req.files k) = [] :=
    List.filter_eq_nil_iff.mpr (fun k2 hk2 => by rw [hnomiss k2 hk2]; exact Bool.false_ne_true)
  obtain ⟨disk2, heq, hlen⟩ := processFiles_first_bad env.host_url req.files env.stamps
    l1 k l2 0 [] [] st.disk hgood hbad
  have heq2 : processFiles env.host_url req.files env.stamps expected 0 [] [] st.disk =
      LoopOut.badType k disk2 := by rw [hsplit]; exact heq
  unfold upload_documents
  rw [hinit, huid]
  simp only [strFalsy, Bool.true_eq_false, if_false, beq_eq_false_iff_ne.mpr hu,
    Option.getD_some, hfilter, List.isEmpty_nil]
  rw [heq2]
  exact ⟨rfl, rfl, hlen⟩

theorem mergeFields_cons_isEmpty (old : List (String × JVal)) (a : String × JVal)
    (upd : List (String × JVal)) : (mergeFields old (a :: upd)).isEmpty = false := by
  unfold mergeFields
  cases old.filter (fun p => (((a :: upd).lookup p.1)).isNone) with
  | nil => rfl
  | cons b t => rfl

theorem get_documents_found (uid : String) (st : ServerState)
    (record : List (String × JVal))
    (hinit : st.firebase_inited = true) (hu : uid ≠ "")
    (hrec : st.store.lookup (pendingPath uid) = some record)
    (hne : record.isEmpty = false) :
    get_documents (some uid) st =
      ({ status := 200, body := Body.json (JVal.obj [("success", JVal.b true),
        ("data", JVal.obj record)]) }, st) := by
  unfold get_documents
  rw [hinit]
  simp only [strFalsy, Bool.true_eq_false, if_false, beq_eq_false_iff_ne.mpr hu,
    Option.getD_some]
  rw [hrec]
  dsimp only
  rw [hne]
  simp

theorem contains_iff_mem_str (l : List String) (x : String) : l.contains x = true ↔ x ∈ l := by
  simp

theorem hexChar_ne_underscore (c : Char) (h : isHexChar c = true) : c ≠ '_' := by
  intro heq
  subst heq
  simp [isHexChar, Char.isDigit, Char.le_def] at h

/-! ## The claims -/

/-- C6: `allowed_file` accepts a filename iff the filename contains a dot and
the substring after the last dot, lowercased, is one of pdf, jpg, jpeg, png;
it inspects only the filename string, never the bytes or MIME type of the
uploaded part. -/
theorem allowed_file_suffix_iff :
    (∀ s : String, allowed_file s = true ↔
      ('.' ∈ s.data ∧
        String.mk ((suffixAfterLastDot s).data.map Char.toLower) ∈ ALLOWED_EXTENSIONS)) ∧
    (∀ (name : String) (bytes1 bytes2 : List Nat),
      allowed_file (FilePart.mk name bytes1).filename =
        allowed_file (FilePart.mk name bytes2).filename) := by
  constructor
  · intro s
    unfold allowed_file
    rw [Bool.and_eq_true, decide_eq_true_iff]
    constructor
    · rintro ⟨h1, h2⟩
      refine ⟨h1, ?_⟩
      have hlist : afterLast '.' s.data = (suffixAfterLastDot s).data := by
        rw [afterLast_eq_takeWhile '.' s.data h1]
        rfl
      rw [hlist] at h2
      exact (contains_iff_mem_str _ _).mp h2
    · rintro ⟨h1, h2⟩
      refine ⟨h1, ?_⟩
      have hlist : afterLast '.' s.data = (suffixAfterLastDot s).data := by
        rw [afterLast_eq_takeWhile '.' s.data h1]
        rfl
      rw [hlist]
      exact (contains_iff_mem_str _ _).mpr h2
  · intro name bytes1 bytes2
    rfl

/-- C7: the stored filename produced by `save_file_and_get_url` is the
sanitized caller-supplied filename prefixed with the millisecond timestamp,
an underscore, the uuid4 hex token, and an underscore; two saves whose
(timestamp, token) pairs differ produce distinct stored filenames, so the
second save leaves the first stored file intact (no overwrite). -/
theorem stored_filename_structure_and_unique
    (ts1 ts2 : Nat) (tok1 tok2 : String) (f1 f2 : FilePart) (host1 host2 : String)
    (d1 : List (String × List Nat))
    (hx1 : ∀ c ∈ tok1.data, isHexChar c = true)
    (hx2 : ∀ c ∈ tok2.data, isHexChar c = true)
    (hne : (ts1, tok1) ≠ (ts2, tok2)) :
    (save_file_and_get_url ts1 tok1 f1 host1 d1).1.2.1 =
        toString ts1 ++ "_" ++ tok1 ++ "_" ++ secure_filename f1.filename ∧
    (save_file_and_get_url ts1 tok1 f1 host1 d1).1.2.1 ≠
      (save_file_and_get_url ts2 tok2 f2 host2
        (save_file_and_get_url ts1 tok1 f1 host1 d1).2).1.2.1 ∧
    (save_file_and_get_url ts2 tok2 f2 host2
        (save_file_and_get_url ts1 tok1 f1 host1 d1).2).2.lookup
      (save_file_and_get_url ts1 tok1 f1 host1 d1).1.2.1 = some f1.content := by
  have hu1 : '_' ∉ tok1.data := fun h => hexChar_ne_underscore _ (hx1 '_' h) rfl
  have hu2 : '_' ∉ tok2.data := fun h => hexChar_ne_underscore _ (hx2 '_' h) rfl
  have hne2 : toString ts1 ++ "_" ++ tok1 ++ "_" ++ secure_filename f1.filename ≠
      toString ts2 ++ "_" ++ tok2 ++ "_" ++ secure_filename f2.filename :=
    unique_name_inj ts1 ts2 tok1 tok2 _ _ hu1 hu2 hne
  refine ⟨rfl, hne2, ?_⟩
  show List.lookup _ (_ :: _ :: d1) = _
  rw [show (save_file_and_get_url ts1 tok1 f1 host1 d1).1.2.1 =
      toString ts1 ++ "_" ++ tok1 ++ "_" ++ secure_filename f1.filename from rfl]
  rw [lookup_cons_ne _ _ _ _ hne2, lookup_cons_eq]

/-- C5: when the Firebase client failed to initialize, POST /upload-documents
and GET /get-documents both return 500 with the configuration-error message
and leave the state untouched, while GET /uploads/applications/{filename}
behaves exactly as it does with the store initialized. -/
theorem store_uninitialized_500 (env : Env) (req : UploadRequest) (uidq : Option String)
    (fn : String) (st : ServerState) (h : st.firebase_inited = false) :
    upload_documents env req st =
      ({ status := 500, body := errBody "Server firebase not initialized. Check env var." }, st) ∧
    get_documents uidq st =
      ({ status := 500, body := errBody "Server firebase not initialized. Check env var." }, st) ∧
    (serve_uploaded_file fn st).1 =
      (serve_uploaded_file fn { st with firebase_inited := true }).1 ∧
    (serve_uploaded_file fn st).2 = st := by
  refine ⟨?_, ?_, ?_, ?_⟩
  · unfold upload_documents
    rw [h]
    simp
  · unfold get_documents
    rw [h]
    simp
  · cases hd : st.disk.lookup fn <;> simp [serve_uploaded_file, hd]
  · cases hd : st.disk.lookup fn <;> simp [serve_uploaded_file, hd]

/-- C10 counterexample: an oversized GET /get-documents request is not
rejected by the framework at all — its handler runs normally and answers
200 with the stored record, because `MAX_CONTENT_LENGTH` is enforced only
when the request body is read and this handler never reads it. -/
theorem oversized_get_not_rejected :
    dispatch envW { route := Route.getDocuments (some "u1"), contentLength := 30000000 } stW =
      ({ status := 200,
         body := Body.json (JVal.obj [("success", JVal.b true),
           ("data", JVal.obj [("status", JVal.s "new")])]) }, stW) :=
  rfl

/-- C10 (amended): no request is rejected for size before its handler runs;
the 20 * 1024 * 1024 limit of src line 20 is enforced lazily when the body
is read.  An oversized GET /get-documents or GET /uploads/applications/...
request runs its handler unaffected.  An oversized POST /upload-documents
(with the store initialized) fails when src line 76 first reads the form:
the RequestEntityTooLarge raised there is converted by the catch-all of src
lines 115-117 into a 500 carrying the exception text, and the state is
unchanged — no file is written to disk and no metadata-store write occurs
for such a request. -/
theorem oversized_request_lazy_enforcement (env : Env) (req : UploadRequest)
    (uidq : Option String) (fn : String) (st : ServerState) (n : Nat)
    (hinit : st.firebase_inited = true)
    (hbig : MAX_CONTENT_LENGTH < n) :
    dispatch env { route := Route.uploadDocuments req, contentLength := n } st =
      ({ status := 500,
         body := errBody
           "413 Request Entity Too Large: The data value transmitted exceeds the capacity limit." },
       st) ∧
    dispatch env { route := Route.getDocuments uidq, contentLength := n } st =
      get_documents uidq st ∧
    dispatch env { route := Route.serveFile fn, contentLength := n } st =
      serve_uploaded_file fn st := by
  refine ⟨?_, rfl, rfl⟩
  unfold dispatch
  rw [hinit]
  simp [hbig]

/-- C1: a valid upload (non-empty uid, all three file fields present with
non-empty filenames and allowed extensions) returns 200 with success true,
the response's `documents` and `meta` objects have exactly the three fixed
field names as keys, and afterwards the record at
application/pending/{uid} holds those documents and documentsMeta maps plus
the upload timestamp. -/
theorem upload_valid_documents_ok (env : Env) (req : UploadRequest) (st : ServerState)
    (uid : String)
    (hinit : st.firebase_inited = true)
    (huid : req.uid = some uid) (hu : uid ≠ "")
    (hfiles : ∀ k ∈ expected, ∃ f, req.files.lookup k = some f ∧ f.filename ≠ "" ∧
        allowed_file f.filename = true) :
    ∃ docs meta,
      (upload_documents env req st).1 =
        { status := 200,
          body := Body.json (JVal.obj [("success", JVal.b true),
                                       ("documents", JVal.obj docs),
                                       ("meta", JVal.obj meta)]) } ∧
      docs.map Prod.fst = expected ∧ meta.map Prod.fst = expected ∧
      ∃ record,
        (upload_documents env req st).2.store.lookup (pendingPath uid) = some record ∧
        record.lookup "documents" = some (JVal.obj docs) ∧
        record.lookup "documentsMeta" = some (JVal.obj meta) ∧
        record.lookup "documentsUploadedAt" = some (JVal.s env.now_iso) := by
  obtain ⟨docs, meta, disk2, heq, h1, h2, _⟩ :=
    upload_success_full env req st uid hinit huid hu hfiles
  refine ⟨docs, meta, by rw [heq], h1, h2, ?_⟩
  rw [heq]
  refine ⟨_, storeUpdate_lookup_self st.store (pendingPath uid) _, ?_, ?_, ?_⟩
  · rw [mergeFields_lookup_new _ _ _ (by rw [lookup_cons_eq]; rfl), lookup_cons_eq]
  · rw [mergeFields_lookup_new _ _ _
      (by rw [lookup_cons_ne _ _ _ _ (by decide), lookup_cons_eq]; rfl),
      lookup_cons_ne _ _ _ _ (by decide), lookup_cons_eq]
  · rw [mergeFields_lookup_new _ _ _
      (by rw [lookup_cons_ne _ _ _ _ (by decide), lookup_cons_ne _ _ _ _ (by decide),
        lookup_cons_eq]; rfl),
      lookup_cons_ne _ _ _ _ (by decide), lookup_cons_ne _ _ _ _ (by decide), lookup_cons_eq]

/-- C2: when any of the three expected file fields is absent or has an empty
filename (and uid is present and the store initialized), the endpoint
returns 400 with a message enumerating exactly the missing field names in
the fixed `expected` order, the state is unchanged (no disk write, no store
write), and the outcome is invariant under reordering of the submitted
fields. -/
theorem upload_missing_files_400 (env : Env) (req : UploadRequest) (st : ServerState)
    (uid : String)
    (hinit : st.firebase_inited = true)
    (huid : req.uid = some uid) (hu : uid ≠ "")
    (hmiss : ∃ k ∈ expected, fileMissing req.files k = true) :
    (upload_documents env req st =
      ({ status := 400,
         body := errBody ("Missing files: " ++ String.intercalate ", "
           (expected.filter (fun k => fileMissing req.files k))) }, st)) ∧
    (∀ k, k ∈ expected.filter (fun k => fileMissing req.files k) ↔
        (k ∈ expected ∧ fileMissing req.files k = true)) ∧
    (∀ files2 : List (String × FilePart), files2.Perm req.files →
        (req.files.map Prod.fst).Nodup →
        upload_documents env { req with files := files2 } st = upload_documents env req st) := by
  refine ⟨?_, ?_, ?_⟩
  · have hne : expected.filter (fun k => fileMissing req.files k) ≠ [] := by
      obtain ⟨k, hk, hm⟩ := hmiss
      intro hnil
      have : k ∈ expected.filter (fun k => fileMissing req.files k) :=
        List.mem_filter.mpr ⟨hk, hm⟩
      rw [hnil] at this
      exact absurd this (List.not_mem_nil k)
    have hfalse : (expected.filter (fun k => fileMissing req.files k)).isEmpty = false := by
      cases hcase : expected.filter (fun k => fileMissing req.files k) with
      | nil => exact absurd hcase hne
      | cons a t => rfl
    unfold upload_documents
    rw [hinit, huid]
    simp only [strFalsy, Bool.true_eq_false, if_false, beq_eq_false_iff_ne.mpr hu,
      Option.getD_some, hfalse]
    simp
  · intro k
    exact List.mem_filter
  · intro files2 hperm hnd
    have hnd2 : (files2.map Prod.fst).Nodup :=
      ((hperm.map Prod.fst).nodup_iff).mpr hnd
    exact upload_documents_files_congr env req files2 st
      (fun k => perm_lookup_eq hperm hnd2 k)

/-- C3: when uid and all three files are present but some file has a
disallowed extension, the endpoint returns 400 naming the first offending
field in the fixed iteration order, the metadata store is untouched, and
only the files strictly before the offending field were persisted (fields
after it are not processed). -/
theorem upload_invalid_extension_400 (env : Env) (req : UploadRequest) (st : ServerState)
    (uid : String) (l1 : List String) (k : String) (l2 : List String)
    (hinit : st.firebase_inited = true)
    (huid : req.uid = some uid) (hu : uid ≠ "")
    (hnomiss : ∀ k2 ∈ expected, fileMissing req.files k2 = false)
    (hsplit : expected = l1 ++ k :: l2)
    (hgood : ∀ k2 ∈ l1, allowed_file (lookupF req.files k2).filename = true)
    (hbad : allowed_file (lookupF req.files k).filename = false) :
    (upload_documents env req st).1 =
      { status := 400, body := errBody ("Invalid file type for " ++ k) } ∧
    (upload_documents env req st).2.store = st.store ∧
    (upload_documents env req st).2.disk.length = st.disk.length + l1.length :=
  upload_first_bad env req st uid l1 k l2 hinit huid hu hnomiss hsplit hgood hbad

/-- C4 (amended): after the uid and presence checks, the loop validates each
file's extension and immediately persists that file before looking at the
next one; the metadata-store write happens only after all three files have
been validated and persisted (success: store written, three new disk
entries), while a failure at the first offending field leaves the store
untouched with exactly the earlier files already persisted. -/
theorem upload_interleaved_processing_order (env : Env) (req : UploadRequest)
    (st : ServerState) (uid : String)
    (hinit : st.firebase_inited = true)
    (huid : req.uid = some uid) (hu : uid ≠ "")
    (hfull : ∀ k ∈ expected, ∃ f, req.files.lookup k = some f ∧ f.filename ≠ "") :
    ((∀ k ∈ expected, allowed_file (lookupF req.files k).filename = true) →
      (upload_documents env req st).1.status = 200 ∧
      (upload_documents env req st).2.disk.length = st.disk.length + 3 ∧
      ∃ record,
        (upload_documents env req st).2.store.lookup (pendingPath uid) = some record ∧
        record.lookup "documentsUploadedAt" = some (JVal.s env.now_iso)) ∧
    (∀ (l1 : List String) (k : String) (l2 : List String), expected = l1 ++ k :: l2 →
      (∀ k2 ∈ l1, allowed_file (lookupF req.files k2).filename = true) →
      allowed_file (lookupF req.files k).filename = false →
      (upload_documents env req st).1.status = 400 ∧
      (upload_documents env req st).2.store = st.store ∧
      (upload_documents env req st).2.disk.length = st.disk.length + l1.length) := by
  constructor
  · intro hall
    have hfiles : ∀ k ∈ expected, ∃ f, req.files.lookup k = some f ∧ f.filename ≠ "" ∧
        allowed_file f.filename = true := by
      intro k hk
      obtain ⟨f, hf, hne⟩ := hfull k hk
      refine ⟨f, hf, hne, ?_⟩
      have := hall k hk
      unfold lookupF at this
      rw [hf] at this
      exact this
    obtain ⟨docs, meta, disk2, heq, _, _, h3⟩ :=
      upload_success_full env req st uid hinit huid hu hfiles
    rw [heq]
    refine ⟨rfl, h3, _, storeUpdate_lookup_self st.store (pendingPath uid) _, ?_⟩
    rw [mergeFields_lookup_new _ _ _
      (by rw [lookup_cons_ne _ _ _ _ (by decide), lookup_cons_ne _ _ _ _ (by decide),
        lookup_cons_eq]; rfl),
      lookup_cons_ne _ _ _ _ (by decide), lookup_cons_ne _ _ _ _ (by decide), lookup_cons_eq]
  · intro l1 k l2 hsplit hgood hbad
    have hnomiss : ∀ k2 ∈ expected, fileMissing req.files k2 = false := by
      intro k2 hk2
      obtain ⟨f, hf, hne⟩ := hfull k2 hk2
      unfold fileMissing
      rw [hf]
      exact beq_eq_false_iff_ne.mpr hne
    obtain ⟨hresp, hstore, hdisk⟩ := upload_first_bad env req st uid l1 k l2
      hinit huid hu hnomiss hsplit hgood hbad
    exact ⟨by rw [hresp], hstore, hdisk⟩

/-- C8: GET /get-documents returns 400 when the uid query parameter is
missing, 404 when no record exists at application/pending/{uid}, and, for a
uid whose upload just succeeded, 200 with a body containing the same
`documents` map that was written; the endpoint never modifies the disk or
the store. -/
theorem get_documents_contract (env : Env) (req : UploadRequest) (st : ServerState)
    (uid : String)
    (hinit : st.firebase_inited = true)
    (huid : req.uid = some uid) (hu : uid ≠ "")
    (hfiles : ∀ k ∈ expected, ∃ f, req.files.lookup k = some f ∧ f.filename ≠ "" ∧
        allowed_file f.filename = true) :
    (get_documents none st = ({ status := 400, body := errBody "Missing uid" }, st)) ∧
    (∀ u : String, u ≠ "" → st.store.lookup (pendingPath u) = none →
      get_documents (some u) st =
        ({ status := 404, body := errBody "No documents found" }, st)) ∧
    (∀ (uq : Option String) (st0 : ServerState), (get_documents uq st0).2 = st0) ∧
    (∃ docs meta record,
      (upload_documents env req st).1 =
        { status := 200, body := Body.json (JVal.obj [("success", JVal.b true),
          ("documents", JVal.obj docs), ("meta", JVal.obj meta)]) } ∧
      (upload_documents env req st).2.store.lookup (pendingPath uid) = some record ∧
      record.lookup "documents" = some (JVal.obj docs) ∧
      get_documents (some uid) (upload_documents env req st).2 =
        ({ status := 200, body := Body.json (JVal.obj [("success", JVal.b true),
          ("data", JVal.obj record)]) }, (upload_documents env req st).2)) := by
  refine ⟨?_, ?_, ?_, ?_⟩
  · unfold get_documents
    rw [hinit]
    simp [strFalsy]
  · intro u hu2 hnone
    unfold get_documents
    rw [hinit]
    simp only [strFalsy, Bool.true_eq_false, if_false, beq_eq_false_iff_ne.mpr hu2,
      Option.getD_some]
    rw [hnone]
    simp
  · intro uq st0
    unfold get_documents
    by_cases h1 : st0.firebase_inited = false
    · rw [if_pos h1]
    · rw [if_neg h1]
      by_cases h2 : strFalsy uq = true
      · rw [if_pos h2]
      · rw [if_neg h2]
        dsimp only
        cases hd : List.lookup (pendingPath (uq.getD "")) st0.store with
        | none => rfl
        | some data =>
            dsimp only
            by_cases h3 : data.isEmpty = true
            · rw [if_pos h3]
            · rw [if_neg h3]
  · obtain ⟨docs, meta, disk2, heq, _, _, _⟩ :=
      upload_success_full env req st uid hinit huid hu hfiles
    refine ⟨docs, meta,
      mergeFields ((st.store.lookup (pendingPath uid)).getD [])
        [("documents", JVal.obj docs), ("documentsMeta", JVal.obj meta),
         ("documentsUploadedAt", JVal.s env.now_iso)], ?_, ?_, ?_, ?_⟩
    · rw [heq]
    · rw [heq]
      exact storeUpdate_lookup_self _ _ _
    · rw [mergeFields_lookup_new _ _ _ (by rw [lookup_cons_eq]; rfl), lookup_cons_eq]
    · rw [heq]
      exact get_documents_found uid _ _ hinit hu
        (storeUpdate_lookup_self _ _ _) (mergeFields_cons_isEmpty _ _ _)

/-- C9: the upload endpoint's write to application/pending/{uid} is a merge:
it sets exactly the fields documents, documentsMeta and documentsUploadedAt,
and every other field of the record previously stored at that path is still
present with its previous value afterwards. -/
theorem upload_update_is_merge (env : Env) (req : UploadRequest) (st : ServerState)
    (uid : String) (R : List (String × JVal))
    (hinit : st.firebase_inited = true)
    (huid : req.uid = some uid) (hu : uid ≠ "")
    (hfiles : ∀ k ∈ expected, ∃ f, req.files.lookup k = some f ∧ f.filename ≠ "" ∧
        allowed_file f.filename = true)
    (hR : st.store.lookup (pendingPath uid) = some R) :
    ∃ docs meta record,
      (upload_documents env req st).2.store.lookup (pendingPath uid) = some record ∧
      record.lookup "documents" = some (JVal.obj docs) ∧
      record.lookup "documentsMeta" = some (JVal.obj meta) ∧
      record.lookup "documentsUploadedAt" = some (JVal.s env.now_iso) ∧
      (∀ k, k ≠ "documents" → k ≠ "documentsMeta" → k ≠ "documentsUploadedAt" →
        record.lookup k = R.lookup k) := by
  obtain ⟨docs, meta, disk2, heq, _, _, _⟩ :=
    upload_success_full env req st uid hinit huid hu hfiles
  refine ⟨docs, meta,
    mergeFields ((st.store.lookup (pendingPath uid)).getD [])
      [("documents", JVal.obj docs), ("documentsMeta", JVal.obj meta),
       ("documentsUploadedAt", JVal.s env.now_iso)], ?_, ?_, ?_, ?_, ?_⟩
  · rw [heq]
    exact storeUpdate_lookup_self _ _ _
  · rw [mergeFields_lookup_new _ _ _ (by rw [lookup_cons_eq]; rfl), lookup_cons_eq]
  · rw [mergeFields_lookup_new _ _ _
      (by rw [lookup_cons_ne _ _ _ _ (by decide), lookup_cons_eq]; rfl),
      lookup_cons_ne _ _ _ _ (by decide), lookup_cons_eq]
  · rw [mergeFields_lookup_new _ _ _
      (by rw [lookup_cons_ne _ _ _ _ (by decide), lookup_cons_ne _ _ _ _ (by decide),
        lookup_cons_eq]; rfl),
      lookup_cons_ne _ _ _ _ (by decide), lookup_cons_ne _ _ _ _ (by decide), lookup_cons_eq]
  · intro k h1 h2 h3
    rw [mergeFields_lookup_old _ _ _
      (by rw [lookup_cons_ne _ _ _ _ h1, lookup_cons_ne _ _ _ _ h2,
        lookup_cons_ne _ _ _ _ h3]; rfl)]
    rw [hR]
    rfl

/-- C4 counterexample: at a concrete request whose second file has a
disallowed extension (`student.txt`) while the first is valid, the endpoint
answers 400 for the second field, yet one file (the first) has already been
persisted to disk — refuting the claim that no file is persisted before all
three extensions have been validated. -/
theorem upload_persists_before_full_validation :
    (upload_documents envW reqBad stW).1 =
      { status := 400, body := errBody "Invalid file type for studentIdCopy" } ∧
    (upload_documents envW reqBad stW).2.disk.length = 1 ∧
    stW.disk.length = 0 :=
  ⟨rfl, rfl, rfl⟩

/-! ## Witnesses: each hypothesis-bearing claim theorem instantiated at a
concrete request -/

/-- Witness for C1 at the concrete valid request `reqW`. -/
theorem upload_valid_documents_ok_witness :
    (upload_documents envW reqW stW).1.status = 200 := by
  obtain ⟨docs, meta, h, -⟩ :=
    upload_valid_documents_ok envW reqW stW "u1" rfl rfl (by decide)
      (by
        intro k hk
        rw [show expected = ["previousResults", "studentIdCopy", "guardianIdCopy"] from rfl] at hk
        simp only [List.mem_cons, List.not_mem_nil, or_false] at hk
        rcases hk with rfl | rfl | rfl
        · exact ⟨fileA, by decide, by decide, by decide⟩
        · exact ⟨fileB, by decide, by decide, by decide⟩
        · exact ⟨fileC, by decide, by decide, by decide⟩)
  rw [h]

/-- Witness for C2 at the concrete request `reqMissing`, which lacks the
studentIdCopy field. -/
theorem upload_missing_files_400_witness :
    upload_documents envW reqMissing stW =
      ({ status := 400, body := errBody "Missing files: studentIdCopy" }, stW) :=
  (upload_missing_files_400 envW reqMissing stW "u1" rfl rfl (by decide)
    ⟨"studentIdCopy", by decide, by decide⟩).1

/-- Witness for C3 at the concrete request `reqBad`, whose studentIdCopy
file has a `.txt` extension. -/
theorem upload_invalid_extension_400_witness :
    (upload_documents envW reqBad stW).1 =
      { status := 400, body := errBody "Invalid file type for studentIdCopy" } :=
  (upload_invalid_extension_400 envW reqBad stW "u1"
    ["previousResults"] "studentIdCopy" ["guardianIdCopy"]
    rfl rfl (by decide) (by decide) rfl (by decide) (by decide)).1

/-- Witness for the amended C4: at `reqBad` the store is untouched while
exactly the one earlier file was persisted. -/
theorem upload_interleaved_processing_order_witness :
    (upload_documents envW reqBad stW).2.store = stW.store :=
  ((upload_interleaved_processing_order envW reqBad stW "u1" rfl rfl (by decide)
      (by
        intro k hk
        rw [show expected = ["previousResults", "studentIdCopy", "guardianIdCopy"] from rfl] at hk
        simp only [List.mem_cons, List.not_mem_nil, or_false] at hk
        rcases hk with rfl | rfl | rfl
        · exact ⟨fileA, by decide, by decide⟩
        · exact ⟨fileBad, by decide, by decide⟩
        · exact ⟨fileC, by decide, by decide⟩)).2
    ["previousResults"] "studentIdCopy" ["guardianIdCopy"]
    rfl (by decide) (by decide)).2.1

/-- Witness for C5 on a state whose Firebase client is uninitialized. -/
theorem store_uninitialized_500_witness :
    upload_documents envW reqW stOff =
      ({ status := 500, body := errBody "Server firebase not initialized. Check env var." },
       stOff) :=
  (store_uninitialized_500 envW reqW (some "u1") "f.pdf" stOff rfl).1

/-- Witness for C7: two saves with different timestamps and the same token
produce distinct stored filenames. -/
theorem stored_filename_unique_witness :
    (save_file_and_get_url 1 tokW fileA "http://h/" []).1.2.1 ≠
      (save_file_and_get_url 2 tokW fileB "http://h/"
        (save_file_and_get_url 1 tokW fileA "http://h/" []).2).1.2.1 :=
  (stored_filename_structure_and_unique 1 2 tokW tokW fileA fileB "http://h/" "http://h/"
    [] (by decide) (by decide) (by decide)).2.1

/-- Witness for C8: the missing-uid branch at the concrete state `stW`. -/
theorem get_documents_contract_witness :
    get_documents none stW = ({ status := 400, body := errBody "Missing uid" }, stW) :=
  (get_documents_contract envW reqW stW "u1" rfl rfl (by decide)
    (by
      intro k hk
      rw [show expected = ["previousResults", "studentIdCopy", "guardianIdCopy"] from rfl] at hk
      simp only [List.mem_cons, List.not_mem_nil, or_false] at hk
      rcases hk with rfl | rfl | rfl
      · exact ⟨fileA, by decide, by decide, by decide⟩
      · exact ⟨fileB, by decide, by decide, by decide⟩
      · exact ⟨fileC, by decide, by decide, by decide⟩)).1

/-- Witness for C9: after the concrete upload, the pre-existing sibling
field `status` of application/pending/u1 still holds its old value. -/
theorem upload_update_is_merge_witness :
    (((upload_documents envW reqW stW).2.store.lookup (pendingPath "u1")).getD
      []).lookup "status" = some (JVal.s "new") := by
  obtain ⟨docs, meta, record, h1, -, -, -, h5⟩ :=
    upload_update_is_merge envW reqW stW "u1" [("status", JVal.s "new")] rfl rfl (by decide)
      (by
        intro k hk
        rw [show expected = ["previousResults", "studentIdCopy", "guardianIdCopy"] from rfl] at hk
        simp only [List.mem_cons, List.not_mem_nil, or_false] at hk
        rcases hk with rfl | rfl | rfl
        · exact ⟨fileA, by decide, by decide, by decide⟩
        · exact ⟨fileB, by decide, by decide, by decide⟩
        · exact ⟨fileC, by decide, by decide, by decide⟩)
      rfl
  rw [h1]
  show record.lookup "status" = some (JVal.s "new")
  rw [h5 "status" (by decide) (by decide) (by decide)]
  rfl

/-- Witness for the amended C10: a 30-megabyte POST /upload-documents gets
the catch-all 500 carrying the RequestEntityTooLarge text, with the state
untouched. -/
theorem oversized_request_lazy_enforcement_witness :
    dispatch envW { route := Route.uploadDocuments reqW, contentLength := 30000000 } stW =
      ({ status := 500,
         body := errBody
           "413 Request Entity Too Large: The data value transmitted exceeds the capacity limit." },
       stW) :=
  (oversized_request_lazy_enforcement envW reqW (some "u1") "f.pdf" stW 30000000
    rfl (by decide)).1

end SignupDocuments
